import Mathlib

/-!
Verification of the wheel-archive editor (`wheeledit/editor.py`).

Strings are modelled as `List Char` (the files involved are ASCII text, so
bytes and characters coincide).  The extraction tree is a finite association
list from relative paths to file contents.  The external archive codec
(`wheel.cli.unpack` / `wheel.cli.pack`) is treated as an opaque collaborator:
unpacking materializes the archive's tree, packing captures the current tree.
The cryptographic digest is abstracted as a function parameter, since its
internals are irrelevant to every property below.
-/

/-- Test whether `p` is an initial segment of `s` (Python `str.startswith`). -/
def startsWithL : List Char → List Char → Bool
  | [], _ => true
  | _ :: _, [] => false
  | p :: ps, c :: cs => p = c && startsWithL ps cs

/-- Test whether `p` is a final segment of `s` (Python `str.endswith`). -/
def endsWithL (p s : List Char) : Bool :=
  startsWithL p.reverse s.reverse

/-- Python's `in` operator on strings: does `s` contain `pat` as a substring? -/
def strContains : List Char → List Char → Bool
  | [], pat => pat.isEmpty
  | c :: cs, pat => startsWithL pat (c :: cs) || strContains cs pat

/-- Python `str.split(sep)`: splits on every occurrence, keeping empty parts. -/
def pySplit (sep : Char) : List Char → List (List Char)
  | [] => [[]]
  | c :: cs =>
    let r := pySplit sep cs
    if c = sep then [] :: r
    else
      match r with
      | [] => [[c]]
      | h :: t => (c :: h) :: t

/-- Python whitespace characters stripped by `str.strip()`. -/
def isPySpace (c : Char) : Bool :=
  c = ' ' || c = '\t' || c = '\n' || c = '\r' || c = '\x0b' || c = '\x0c'

/-- Python `str.strip()`. -/
def pyStrip (s : List Char) : List Char :=
  ((s.dropWhile isPySpace).reverse.dropWhile isPySpace).reverse

/-- Auxiliary loop of `pyReplace`; the fuel bounds the scan length. -/
def pyReplaceAux (pat rep : List Char) : Nat → List Char → List Char
  | 0, s => s
  | _ + 1, [] => []
  | fuel + 1, c :: cs =>
    if startsWithL pat (c :: cs) then
      rep ++ pyReplaceAux pat rep fuel (List.drop pat.length (c :: cs))
    else
      c :: pyReplaceAux pat rep fuel cs

/-- `s.replace("", rep)` in Python interleaves `rep` around every character. -/
def interleaveRep (rep : List Char) : List Char → List Char
  | [] => rep
  | c :: cs => rep ++ c :: interleaveRep rep cs

/-- Python `str.replace(pat, rep)`: leftmost non-overlapping occurrences. -/
def pyReplace (s pat rep : List Char) : List Char :=
  match pat with
  | [] => interleaveRep rep s
  | _ :: _ => pyReplaceAux pat rep s.length s

/-- Python `str.replace(a, b)` for single characters. -/
def replaceChar (a b : Char) (s : List Char) : List Char :=
  s.map fun c => if c = a then b else c

/-- First path segment: everything before the first `/`. -/
def firstSeg (p : List Char) : List Char :=
  p.takeWhile (· ≠ '/')

/-- Keep the first occurrence of each element, dropping later duplicates
(the order in which `glob` reports distinct top-level entries). -/
def dedupFirst (seen : List (List Char)) : List (List Char) → List (List Char)
  | [] => []
  | x :: xs =>
    if seen.contains x then dedupFirst seen xs
    else x :: dedupFirst (x :: seen) xs

/-- `pathlib.PurePath.stem`: the name with its last extension removed; a dot
at position 0 (hidden-file style) does not start an extension. -/
def pathStem (nm : List Char) : List Char :=
  let rev := nm.reverse
  let after := rev.takeWhile (· ≠ '.')
  if after.length = rev.length then nm
  else
    let stemRev := rev.drop (after.length + 1)
    if stemRev = [] then nm else stemRev.reverse

/-- The error kinds of the editor, named as in the specification: Python
`ValueError` on a missing metadata directory is `structural`, the invalid
package-name `ValueError` is `invalidName`, `FileNotFoundError` is
`notFound`, the "target must be inside the wheel" `ValueError` is
`pathEscape`, and the "must be unpacked before repackaging" `ValueError`
is `state`. -/
inductive Err where
  | structural
  | invalidName
  | notFound
  | pathEscape
  | state
deriving DecidableEq, Repr

/-- The extraction tree: an ordered map from relative file paths to file
contents.  Only files are tracked; directories exist implicitly as path
prefixes (the temporary tree never holds empty directories the editor
cares about). -/
structure FS where
  files : List (List Char × List Char)
deriving DecidableEq, Repr

/-- Association-list lookup (first match wins). -/
def lookupL : List (List Char × List Char) → List Char → Option (List Char)
  | [], _ => none
  | (q, c) :: rest, p => if q = p then some c else lookupL rest p

/-- Content of the file at `p`, if present. -/
def FS.lookupFile (fs : FS) (p : List Char) : Option (List Char) :=
  lookupL fs.files p

/-- Write `c` to path `p`: overwrite in place if the path exists, else create. -/
def FS.writeFile (fs : FS) (p c : List Char) : FS :=
  if (fs.lookupFile p).isSome then
    ⟨fs.files.map fun e => if e.1 = p then (p, c) else e⟩
  else
    ⟨fs.files ++ [(p, c)]⟩

/-- The distinct top-level entries of the tree, in first-occurrence order
(the entries `glob` enumerates at the root). -/
def FS.topEntries (fs : FS) : List (List Char) :=
  dedupFirst [] (fs.files.map fun e => firstSeg e.1)

/-- `unpacked_dir.glob('*.dist-info')`: top-level entries whose name ends in
`.dist-info`. -/
def FS.distInfoDirs (fs : FS) : List (List Char) :=
  fs.topEntries.filter fun d => endsWithL ".dist-info".data d

/-- The `dist_info_dir` property: raises when no `.dist-info` directory is
found, otherwise returns the first one (`dist_info_dirs[0]`). -/
def FS.distInfoDirE (fs : FS) : Except Err (List Char) :=
  match fs.distInfoDirs with
  | [] => .error .structural
  | d :: _ => .ok d

/-- Move the directory `old` to `new`: rewrite each file path under it. -/
def renameDirPath (old new p : List Char) : List Char :=
  if p = old then new
  else if startsWithL (old ++ ['/']) p then new ++ p.drop old.length
  else p

/-- `Path.rename` on a directory, as its action on the tracked file paths. -/
def FS.renameDir (fs : FS) (old new : List Char) : FS :=
  ⟨fs.files.map fun e => (renameDirPath old new e.1, e.2)⟩

/-- ASCII letter test. -/
def isAsciiAlpha (c : Char) : Bool :=
  ('a' ≤ c && c ≤ 'z') || ('A' ≤ c && c ≤ 'Z')

/-- ASCII digit test. -/
def isDigitC (c : Char) : Bool :=
  '0' ≤ c && c ≤ '9'

/-- ASCII alphanumeric test (`str.isalnum` restricted to the ASCII range the
validation regex has already enforced). -/
def isAlnumC (c : Char) : Bool :=
  isAsciiAlpha c || isDigitC c

/-- Character class of the validation regex `^[a-zA-Z0-9._-]+$`. -/
def isNameChar (c : Char) : Bool :=
  isAlnumC c || c = '.' || c = '_' || c = '-'

namespace WheelEditor

/-- `WheelEditor.validate_package_name`: empty check, then the character-class
regex, then the alphanumeric first/last check. -/
def validate_package_name (n : List Char) : Bool :=
  if n = [] then false
  else if !(n.all isNameChar) then false
  else isAlnumC (n.headD ' ') && isAlnumC (n.getLastD ' ')

end WheelEditor

/-- The version suffix `rename_package` preserves: `-<last hyphen part of the
stem>` when the old directory's stem contains a hyphen, else empty. -/
def versionSuffix (old : List Char) : List Char :=
  let stem := pathStem old
  if stem.contains '-' then '-' :: (pySplit '-' stem).getLastD [] else []

/-- The new metadata-directory name `rename_package` constructs:
`new_name.replace('-', '_') + version + ".dist-info"`. -/
def newDistName (old n : List Char) : List Char :=
  replaceChar '-' '_' n ++ versionSuffix old ++ ".dist-info".data

/-- The pattern of the `Name:` rewrite, `re.sub(r'Name: .*', ...)`. -/
def namePat : List Char := "Name: ".data

/-- Scan loop of the `Name:` rewrite: at a match, the literal `Name: ` plus
the rest of the line (`.` does not cross a newline) is replaced by
`Name: ` followed by the new name; scanning resumes after the match. -/
def reSubNameAux (n : List Char) : Nat → List Char → List Char
  | 0, s => s
  | _ + 1, [] => []
  | fuel + 1, c :: cs =>
    if startsWithL namePat (c :: cs) then
      namePat ++ n ++
        reSubNameAux n fuel (((c :: cs).drop namePat.length).dropWhile (· ≠ '\n'))
    else
      c :: reSubNameAux n fuel cs

/-- `re.sub(r'Name: .*', f'Name: {new_name}', content)`. -/
def reSubName (content n : List Char) : List Char :=
  reSubNameAux n content.length content

/-- The body of `rename_package` after validation and lazy unpacking: locate
the metadata directory, rename it preserving the version suffix, and rewrite
the `Name:` field of `METADATA` when that file exists. -/
def renamePackageCore (fs : FS) (n : List Char) : Except Err FS :=
  match fs.distInfoDirE with
  | .error e => .error e
  | .ok old =>
    let newDist := newDistName old n
    let fs1 := fs.renameDir old newDist
    let mdPath := newDist ++ "/METADATA".data
    match fs1.lookupFile mdPath with
    | none => .ok fs1
    | some content => .ok (fs1.writeFile mdPath (reSubName content n))

/-- A `pathlib` path: an absolute-path flag plus the path's segments.
Parsing collapses empty and `.` segments exactly as `PurePath` does; `..`
segments are kept (pure paths never resolve them). -/
structure PyPath where
  absFlag : Bool
  segs : List (List Char)
deriving DecidableEq, Repr

/-- Parse a path string into a `PyPath`. -/
def parsePath (s : List Char) : PyPath :=
  { absFlag := s.headD ' ' = '/'
    segs := (pySplit '/' s).filter fun p => p ≠ [] && p ≠ ['.'] }

/-- Resolve `..` segments against the filesystem root (POSIX: `/.. = /`),
giving the path an actual write at these segments lands on.  `acc` holds the
already-resolved segments in reverse. -/
def normSegsAux (acc : List (List Char)) : List (List Char) → List (List Char)
  | [] => acc.reverse
  | s :: rest =>
    if s = "..".data then normSegsAux (acc.drop 1) rest
    else normSegsAux (s :: acc) rest

/-- Resolved form of an absolute path's segments. -/
def normSegs (segs : List (List Char)) : List (List Char) :=
  normSegsAux [] segs

/-- Segment-list prefix test (what `Path.relative_to` succeeds on). -/
def segsStartWith : List (List Char) → List (List Char) → Bool
  | [], _ => true
  | _ :: _, [] => false
  | p :: ps, c :: cs => p = c && segsStartWith ps cs

/-- Does the (absolute) path `p` resolve outside the extraction tree rooted
at `root`?  This is the specification's notion of a target "whose normalized
form resolves outside the extraction tree". -/
def escapesTree (root p : PyPath) : Bool :=
  !(segsStartWith (normSegs root.segs) (normSegs p.segs))

/-- Join relative segments back into a relative path string. -/
def joinSegs : List (List Char) → List Char
  | [] => []
  | [s] => s
  | s :: rest => s ++ '/' :: joinSegs rest

/-- An editor session: the source archive's tree (what the codec would
extract), the absolute path of the temporary extraction directory, and the
extraction state (`none` before `unpack`). -/
structure Editor where
  archive : FS
  root : PyPath
  unpacked : Option FS
deriving DecidableEq, Repr

/-- The `if self.unpacked_dir is None: self.unpack()` prelude: returns the
current tree together with the (possibly freshly unpacked) session. -/
def Editor.ensureUnpacked (e : Editor) : FS × Editor :=
  match e.unpacked with
  | none => (e.archive, { e with unpacked := some e.archive })
  | some fs => (fs, e)

/-- Operation results: errors carry the session state at the moment the
Python exception is raised, so theorems can speak about what was (not yet)
mutated. -/
abbrev ERes (α : Type) := Except (Err × Editor) (Editor × α)

namespace WheelEditor

/-- `WheelEditor.rename_package`: validate, lazily unpack, then rename the
metadata directory and rewrite the `Name:` field. -/
def rename_package (e : Editor) (n : List Char) : ERes (List Char) :=
  if validate_package_name n = false then .error (.invalidName, e)
  else
    let p := e.ensureUnpacked
    match renamePackageCore p.1 n with
    | .error err => .error (err, p.2)
    | .ok fs' => .ok ({ p.2 with unpacked := some fs' }, n)

/-- `WheelEditor.replace_file`: lazily unpack, check the source exists, strip
the tree root from an absolute target (rejecting absolute targets that are
not lexically under it), then copy the source content to
`unpacked_dir / target`, creating parents.  The returned path is the
absolute location written.  `source` is `none` when the source file does not
exist, else `some` of its content. -/
def replace_file (e : Editor) (target : List Char) (source : Option (List Char)) :
    ERes PyPath :=
  let p := e.ensureUnpacked
  let tgt := parsePath target
  match source with
  | none => .error (.notFound, p.2)
  | some content =>
    let rel? : Except Err (List (List Char)) :=
      if tgt.absFlag then
        if segsStartWith e.root.segs tgt.segs then
          .ok (tgt.segs.drop e.root.segs.length)
        else .error .pathEscape
      else .ok tgt.segs
    match rel? with
    | .error err => .error (err, p.2)
    | .ok rel =>
      let full : PyPath := ⟨e.root.absFlag, e.root.segs ++ rel⟩
      .ok ({ p.2 with unpacked := some (p.1.writeFile (joinSegs rel) content) }, full)

/-- `WheelEditor.replace_metadata`: lazily unpack, check the source exists,
then copy it over `<dist-info>/METADATA`. -/
def replace_metadata (e : Editor) (source : Option (List Char)) :
    ERes (List Char) :=
  let p := e.ensureUnpacked
  match source with
  | none => .error (.notFound, p.2)
  | some content =>
    match p.1.distInfoDirE with
    | .error err => .error (err, p.2)
    | .ok d =>
      let tgt := d ++ "/METADATA".data
      .ok ({ p.2 with unpacked := some (p.1.writeFile tgt content) }, tgt)

/-- One pass of `rename_file` in literal (`use_regex=False`) mode over the
walked files: matching paths are replaced and recorded, the rest are kept.
Returns the resulting file list and the renamed pairs in walk order. -/
def renameFilePass (pat rep : List Char) :
    List (List Char × List Char) →
      List (List Char × List Char) × List (List Char × List Char)
  | [] => ([], [])
  | (pth, c) :: rest =>
    let r := renameFilePass pat rep rest
    if strContains pth pat then
      let np := pyReplace pth pat rep
      ((np, c) :: r.1, (pth, np) :: r.2)
    else
      ((pth, c) :: r.1, r.2)

/-- `WheelEditor.rename_file` with `use_regex=False` (the regex branch is
not needed by any property below): lazily unpack, then walk the tree
renaming every file whose relative path contains the literal pattern. -/
def rename_file (e : Editor) (pat rep : List Char) :
    ERes (List (List Char × List Char)) :=
  let p := e.ensureUnpacked
  let r := renameFilePass pat rep p.1.files
  .ok ({ p.2 with unpacked := some ⟨r.1⟩ }, r.2)

/-- Is the file path `p` inside directory `d` (or is `d` the tree root)? -/
def underDir (d : List (List Char)) (p : List Char) : Bool :=
  segsStartWith d (parsePath p).segs

/-- `WheelEditor.list`: lazily unpack, then return every file under the
given subpath, relative to the tree root.  A subpath "exists" when it is the
root or some tracked file lies at or under it. -/
def list (e : Editor) (dir : List Char) : ERes (List (List Char)) :=
  let p := e.ensureUnpacked
  let d := (parsePath dir).segs
  if d = [] ∨ (p.1.files.any fun f => underDir d f.1 || f.1 = joinSegs d) then
    .ok (p.2, (p.1.files.filter fun f => underDir d f.1).map (·.1))
  else
    .error (.notFound, p.2)

/-- `WheelEditor.get_metadata`: lazily unpack, then return the text of
`<dist-info>/METADATA`, or `none` when that file is absent. -/
def get_metadata (e : Editor) : ERes (Option (List Char)) :=
  let p := e.ensureUnpacked
  match p.1.distInfoDirE with
  | .error err => .error (err, p.2)
  | .ok d => .ok (p.2, p.1.lookupFile (d ++ "/METADATA".data))

end WheelEditor

/-- The lines Python's file iteration plus `strip()` effectively processes:
splitting on newlines (the trailing empty piece of a newline-terminated file
is discarded by the blank-line skip). -/
def pyLines (content : List Char) : List (List Char) :=
  pySplit '\n' content

/-- Loop body of `_update_record_file`: strip each line, skip blanks; for a
record of three or more comma-separated fields, a path ending in `RECORD`
gets empty hash/size, an existing path gets a fresh digest and byte length,
a missing path keeps its recorded fields; shorter records are padded.
`digest` abstracts `hashlib.sha256(...).hexdigest()`. -/
def updateRecordData (digest : List Char → List Char) (fs : FS) :
    List (List Char) → List (List Char × (List Char × List Char))
  | [] => []
  | ln :: rest =>
    let line := pyStrip ln
    if line = [] then updateRecordData digest fs rest
    else
      let parts := pySplit ',' line
      let entry :=
        if 3 ≤ parts.length then
          let fp := parts.headD []
          if endsWithL "RECORD".data fp then (fp, (([] : List Char), ([] : List Char)))
          else
            match fs.lookupFile fp with
            | some content =>
              (fp, ("sha256=".data ++ digest content, Nat.toDigits 10 content.length))
            | none => (fp, (parts.getD 1 [], parts.getD 2 []))
        else
          (parts.getD 0 [], (parts.getD 1 [], parts.getD 2 []))
      entry :: updateRecordData digest fs rest

/-- Serialize the record triples back as `path,hash,size` lines. -/
def joinRecord : List (List Char × (List Char × List Char)) → List Char
  | [] => []
  | (fp, h, sz) :: rest => fp ++ ',' :: h ++ ',' :: sz ++ '\n' :: joinRecord rest

/-- `WheelEditor._update_record_file`: silently a no-op when the manifest is
absent, otherwise rewrite it from the processed records. -/
def updateRecordFile (digest : List Char → List Char) (fs : FS) : Except Err FS :=
  match fs.distInfoDirE with
  | .error e => .error e
  | .ok d =>
    let rp := d ++ "/RECORD".data
    match fs.lookupFile rp with
    | none => .ok fs
    | some content =>
      .ok (fs.writeFile rp (joinRecord (updateRecordData digest fs (pyLines content))))

namespace WheelEditor

/-- `WheelEditor.repackage`: demands a prior unpack, regenerates the
manifest, invokes the codec's `pack` on the tree (modelled as capturing the
tree), and cleans up the session. -/
def repackage (digest : List Char → List Char) (e : Editor) : ERes FS :=
  match e.unpacked with
  | none => .error (.state, e)
  | some fs =>
    match updateRecordFile digest fs with
    | .error err => .error (err, e)
    | .ok fs' => .ok ({ e with unpacked := none }, fs')

end WheelEditor

/-- Name grammar as the specification words it: non-empty; characters
restricted to ASCII letters, digits, `.`, `_`, `-`; first and last character
alphanumeric. -/
def specNameOk (n : List Char) : Bool :=
  !n.isEmpty &&
  n.all (fun c => isAsciiAlpha c || isDigitC c || c = '.' || c = '_' || c = '-') &&
  isAlnumC (n.headD ' ') && isAlnumC (n.getLastD ' ')

/-- Modelled from the spec (amended for C3): the records a single manifest
line contributes.  A blank line contributes nothing; a record of three or
more fields whose path ends in `RECORD` is emitted with empty hash/size; an
existing path gets a fresh digest and byte length; a missing path keeps its
recorded fields; a shorter record is padded with empty fields. -/
def recordLineSpecEmit (digest : List Char → List Char) (fs : FS) (ln : List Char) :
    List (List Char × (List Char × List Char)) :=
  let line := pyStrip ln
  if line = [] then []
  else
    let parts := pySplit ',' line
    if parts.length < 3 then
      [(parts.getD 0 [], (parts.getD 1 [], parts.getD 2 []))]
    else
      let fp := parts.headD []
      if endsWithL "RECORD".data fp then [(fp, (([] : List Char), ([] : List Char)))]
      else
        match fs.lookupFile fp with
        | some content =>
          [(fp, ("sha256=".data ++ digest content, Nat.toDigits 10 content.length))]
        | none => [(fp, (parts.getD 1 [], parts.getD 2 []))]

/-! ### Concrete fixtures

A representative wheel tree `demo-1.0.0` (the scenario of §8 of the
specification), plus smaller trees exercising individual operations. -/

/-- Metadata body of the demo wheel. -/
def mdDemo : List Char := "Name: demo\nVersion: 1.0.0\n".data

/-- Build-info file of the demo wheel; it mentions the identity token
`demo`. -/
def wheelDemo : List Char := "Wheel-Version: 1.0\nGenerator: demo\nTag: py3-none-any\n".data

/-- Manifest of the demo wheel; its entries reference the old directory
name `demo-1.0.0.dist-info`. -/
def recDemo : List Char :=
  "demo/__init__.py,sha256=aaa,6\ndemo-1.0.0.dist-info/METADATA,sha256=bbb,26\ndemo-1.0.0.dist-info/RECORD,,\n".data

/-- The demo extraction tree. -/
def fsDemo : FS :=
  ⟨[("demo-1.0.0.dist-info/METADATA".data, mdDemo),
    ("demo-1.0.0.dist-info/WHEEL".data, wheelDemo),
    ("demo-1.0.0.dist-info/RECORD".data, recDemo),
    ("demo/__init__.py".data, "x = 1\n".data)]⟩

/-- Absolute path of the temporary extraction directory. -/
def rootDemo : PyPath := ⟨true, ["tmp".data, "wex".data, "demo-1.0.0".data]⟩

/-- A session on the demo wheel, already unpacked. -/
def edDemo : Editor := ⟨fsDemo, rootDemo, some fsDemo⟩

/-- The metadata-directory name `rename_package` produces on the demo tree. -/
def dOf (n : List Char) : List Char :=
  newDistName "demo-1.0.0.dist-info".data n

/-- The demo tree right after the directory rename, before the `METADATA`
rewrite. -/
def fsDemoRenamed (n : List Char) : FS :=
  ⟨[(dOf n ++ "/METADATA".data, mdDemo),
    (dOf n ++ "/WHEEL".data, wheelDemo),
    (dOf n ++ "/RECORD".data, recDemo),
    ("demo/__init__.py".data, "x = 1\n".data)]⟩

/-- The demo tree after `rename_package(n)`. -/
def fsAfterDemo (n : List Char) : FS :=
  ⟨[(dOf n ++ "/METADATA".data, "Name: ".data ++ n ++ "\nVersion: 1.0.0\n".data),
    (dOf n ++ "/WHEEL".data, wheelDemo),
    (dOf n ++ "/RECORD".data, recDemo),
    ("demo/__init__.py".data, "x = 1\n".data)]⟩

/-- The demo session after `rename_package(n)`. -/
def edAfterDemo (n : List Char) : Editor := ⟨fsDemo, rootDemo, some (fsAfterDemo n)⟩

/-- Stand-in digest used to evaluate the manifest algorithm on concrete
inputs (the real `sha256` is an opaque collaborator). -/
def digest0 : List Char → List Char := fun c => Nat.toDigits 10 c.length

/-- A manifest whose first record's path ends in `RECORD` without being the
manifest's own path. -/
def recC3 : List Char := "pkg/RECORD,sha256=old,99\nd_1.dist-info/RECORD,,\n".data

/-- Tree for the manifest-regeneration counterexample: `pkg/RECORD` is a
live file distinct from the manifest `d_1.dist-info/RECORD`. -/
def fsC3 : FS :=
  ⟨[("d_1.dist-info/RECORD".data, recC3), ("pkg/RECORD".data, "abc".data)]⟩

/-- Tree with two metadata directories. -/
def fsC7 : FS :=
  ⟨[("a-1.dist-info/METADATA".data, "m".data),
    ("b-2.dist-info/METADATA".data, "m2".data)]⟩

/-- Tree for the file-rename scenario. -/
def fsC8 : FS :=
  ⟨[("pkg/old_module/__init__.py".data, "A".data),
    ("pkg/other.py".data, "B".data)]⟩

/-- Session on the file-rename scenario tree. -/
def edC8 : Editor := ⟨fsC8, rootDemo, some fsC8⟩

/-- Tree with a metadata directory but no manifest. -/
def fsC10 : FS := ⟨[("d-1.dist-info/METADATA".data, "m".data)]⟩

example : pySplit ',' "a,b,,c".data = ["a".data, "b".data, [], "c".data] := by decide

example : pathStem "demo-1.0.0.dist-info".data = "demo-1.0.0".data := by decide

example : pathStem ".dist-info".data = ".dist-info".data := by decide

example : WheelEditor.validate_package_name "a-b.c_d".data = true := by decide

example : WheelEditor.validate_package_name "-ab".data = false := by decide

example :
    newDistName "demo-1.0.0.dist-info".data "demo2".data
      = "demo2-1.0.0.dist-info".data := by decide

example :
    reSubName "Name: demo\nVersion: 1.0.0\n".data "demo2".data
      = "Name: demo2\nVersion: 1.0.0\n".data := by decide

/-! ### General lemmas -/

theorem append_right_ne (d : List Char) {a b : List Char} (h : a ≠ b) :
    d ++ a ≠ d ++ b :=
  fun hc => h (List.append_cancel_left hc)

theorem startsWith_self_append (p t : List Char) : startsWithL p (p ++ t) = true := by
  induction p with
  | nil => rfl
  | cons c cs ih => simp [startsWithL, ih]

theorem endsWith_append_self (s a : List Char) : endsWithL s (a ++ s) = true := by
  simp [endsWithL, List.reverse_append, startsWith_self_append]

theorem ne_append_of_not_endsWith {X s : List Char} (h : endsWithL s X = false)
    (d : List Char) : X ≠ d ++ s := by
  intro hc
  rw [hc, endsWith_append_self] at h
  cases h

theorem contains_of_startsWith {s p : List Char} (h : startsWithL p s = true) :
    strContains s p = true := by
  cases s with
  | nil =>
    cases p with
    | nil => rfl
    | cons c cs => simp [startsWithL] at h
  | cons c cs => simp [strContains, h]

theorem takeWhile_append_cons (p : Char → Bool) (a : List Char) (c : Char)
    (b : List Char) (ha : ∀ x ∈ a, p x = true) (hc : p c = false) :
    (a ++ c :: b).takeWhile p = a := by
  induction a with
  | nil => simp [List.takeWhile_cons, hc]
  | cons y ys ih =>
    have hy := ha y (by simp)
    simp only [List.cons_append, List.takeWhile_cons, hy]
    simp [ih fun x hx => ha x (by simp [hx])]

theorem lookupL_mem_of_ne {l : List (List Char × List Char)} {q c : List Char}
    (key v : List Char) (hne : q ≠ key) (hmem : (q, c) ∈ l) :
    (q, c) ∈ (FS.writeFile ⟨l⟩ key v).files := by
  unfold FS.writeFile
  split
  · refine List.mem_map.mpr ⟨(q, c), hmem, ?_⟩
    simp [hne]
  · exact List.mem_append_left _ hmem

/-! ### Symbolic evaluation of `rename_package` on the demo tree -/

theorem versionSuffix_demo : versionSuffix "demo-1.0.0.dist-info".data = "-1.0.0".data := rfl

theorem dOf_eq (n : List Char) :
    dOf n = replaceChar '-' '_' n ++ "-1.0.0.dist-info".data := by
  simp only [dOf, newDistName, versionSuffix_demo, List.append_assoc]
  rfl

theorem dOf_length (n : List Char) : (dOf n).length = n.length + 16 := by
  rw [dOf_eq]
  simp [replaceChar]

theorem dOf_ne_demo (n : List Char) : dOf n ≠ "demo".data := by
  intro hc
  have hl := dOf_length n
  rw [hc] at hl
  simp at hl

theorem wheel_ne_md (n : List Char) :
    dOf n ++ "/WHEEL".data ≠ dOf n ++ "/METADATA".data :=
  append_right_ne _ (by decide)

theorem record_ne_md (n : List Char) :
    dOf n ++ "/RECORD".data ≠ dOf n ++ "/METADATA".data :=
  append_right_ne _ (by decide)

theorem init_ne_md (n : List Char) :
    "demo/__init__.py".data ≠ dOf n ++ "/METADATA".data :=
  ne_append_of_not_endsWith (by decide) _

theorem resub_mdDemo (n : List Char) :
    reSubName mdDemo n = "Name: ".data ++ n ++ "\nVersion: 1.0.0\n".data := by
  simp +decide [reSubName, mdDemo, reSubNameAux, namePat, startsWithL]

theorem lookup_renamed (n : List Char) :
    (fsDemoRenamed n).lookupFile (dOf n ++ "/METADATA".data) = some mdDemo := by
  simp [fsDemoRenamed, FS.lookupFile, lookupL]

theorem write_renamed (n : List Char) :
    (fsDemoRenamed n).writeFile (dOf n ++ "/METADATA".data)
        ("Name: ".data ++ n ++ "\nVersion: 1.0.0\n".data) = fsAfterDemo n := by
  simp [fsDemoRenamed, fsAfterDemo, FS.writeFile, FS.lookupFile, lookupL,
    wheel_ne_md n, record_ne_md n, init_ne_md n]

theorem renameDemoEq (n : List Char) :
    renamePackageCore fsDemo n = .ok (fsAfterDemo n) := by
  have h0 :
      renamePackageCore fsDemo n
        = match (fsDemoRenamed n).lookupFile (dOf n ++ "/METADATA".data) with
          | none => .ok (fsDemoRenamed n)
          | some content =>
            .ok ((fsDemoRenamed n).writeFile (dOf n ++ "/METADATA".data)
                  (reSubName content n)) := rfl
  rw [h0, lookup_renamed n]
  show Except.ok ((fsDemoRenamed n).writeFile (dOf n ++ "/METADATA".data)
    (reSubName mdDemo n)) = _
  rw [resub_mdDemo n, write_renamed n]

theorem validate_parts {n : List Char}
    (h : WheelEditor.validate_package_name n = true) :
    n ≠ [] ∧ n.all isNameChar = true ∧
      isAlnumC (n.headD ' ') = true ∧ isAlnumC (n.getLastD ' ') = true := by
  unfold WheelEditor.validate_package_name at h
  split_ifs at h with h1 h2
  have hab : isAlnumC (n.headD ' ') = true ∧ isAlnumC (n.getLastD ' ') = true := by
    simpa using h
  exact ⟨h1, by simpa using h2, hab.1, hab.2⟩

theorem noSlash_dOf {n : List Char}
    (h : WheelEditor.validate_package_name n = true) :
    ∀ c ∈ dOf n, c ≠ '/' := by
  intro c hc
  rw [dOf_eq] at hc
  rcases List.mem_append.mp hc with h1 | h2
  · rcases List.mem_map.mp h1 with ⟨a, ha, rfl⟩
    have hna : isNameChar a = true :=
      List.all_eq_true.mp (validate_parts h).2.1 a ha
    by_cases hd : a = '-'
    · simp [hd]
    · simp only [if_neg hd]
      intro hslash
      rw [hslash] at hna
      exact absurd hna (by decide)
  · have hconc : ∀ x ∈ "-1.0.0.dist-info".data, x ≠ '/' := by decide
    exact hconc c h2

theorem firstSeg_dOf_slash {n : List Char}
    (h : WheelEditor.validate_package_name n = true) (s : List Char) :
    firstSeg (dOf n ++ '/' :: s) = dOf n := by
  refine takeWhile_append_cons _ _ _ _ (fun x hx => ?_) (by decide)
  exact decide_eq_true (noSlash_dOf h x hx)

theorem endsDistInfo_dOf (n : List Char) :
    endsWithL ".dist-info".data (dOf n) = true := by
  have hsplit : dOf n = (replaceChar '-' '_' n ++ "-1.0.0".data) ++ ".dist-info".data := by
    rw [dOf_eq, List.append_assoc]
    rfl
  rw [hsplit]
  exact endsWith_append_self _ _

theorem distInfo_after {n : List Char}
    (h : WheelEditor.validate_package_name n = true) :
    (fsAfterDemo n).distInfoDirE = .ok (dOf n) := by
  have h1 : firstSeg (dOf n ++ "/METADATA".data) = dOf n := firstSeg_dOf_slash h _
  have h2 : firstSeg (dOf n ++ "/WHEEL".data) = dOf n := firstSeg_dOf_slash h _
  have h3 : firstSeg (dOf n ++ "/RECORD".data) = dOf n := firstSeg_dOf_slash h _
  have h4 : firstSeg "demo/__init__.py".data = "demo".data := by decide
  have h5a : ¬(dOf n = "demo".data) := dOf_ne_demo n
  have h5b : ¬("demo".data = dOf n) := fun hc => dOf_ne_demo n hc.symm
  have htop : (fsAfterDemo n).topEntries = [dOf n, "demo".data] := by
    simp [FS.topEntries, fsAfterDemo, h1, h2, h3, h4, dedupFirst, List.contains,
      h5a, h5b]
  have hdirs : (fsAfterDemo n).distInfoDirs = [dOf n] := by
    unfold FS.distInfoDirs
    rw [htop]
    simp +decide [List.filter_cons, endsDistInfo_dOf n]
  simp [FS.distInfoDirE, hdirs]

theorem md_after (n : List Char) :
    (fsAfterDemo n).lookupFile (dOf n ++ "/METADATA".data)
      = some ("Name: ".data ++ n ++ "\nVersion: 1.0.0\n".data) := by
  simp [fsAfterDemo, FS.lookupFile, lookupL]

/-! ### C1 -/

/-- C1 counterexample: on the demo tree, `rename_package("demo2")` succeeds,
but the build-info file `WHEEL` still carries its old text (in which the old
identity token `demo` occurs and whose substitution would differ), and the
manifest `RECORD` still carries path entries referencing the old directory
name `demo-1.0.0.dist-info`. -/
theorem c1_wheel_record_not_rewritten :
    WheelEditor.rename_package edDemo "demo2".data
      = .ok (edAfterDemo "demo2".data, "demo2".data) ∧
    (fsAfterDemo "demo2".data).lookupFile "demo2-1.0.0.dist-info/WHEEL".data
      = some wheelDemo ∧
    strContains wheelDemo "demo".data = true ∧
    pyReplace wheelDemo "demo".data "demo2".data ≠ wheelDemo ∧
    (fsAfterDemo "demo2".data).lookupFile "demo2-1.0.0.dist-info/RECORD".data
      = some recDemo ∧
    strContains recDemo "demo-1.0.0.dist-info".data = true ∧
    pyReplace recDemo "demo-1.0.0.dist-info".data "demo2-1.0.0.dist-info".data
      ≠ recDemo :=
  ⟨rfl, rfl, by decide, by decide, rfl, by decide, by decide⟩

/-- C1 (amended): a successful `rename_package` moves every file with the
directory rename but leaves the contents of every file other than the
metadata body byte-identical — in particular `WHEEL` undergoes no token
substitution and `RECORD` no path rewriting. -/
theorem c1_rename_preserves_file_contents
    (fs : FS) (n : List Char) (fs' : FS) (old p c : List Char)
    (hdist : fs.distInfoDirE = .ok old)
    (hok : renamePackageCore fs n = .ok fs')
    (hmem : (p, c) ∈ fs.files)
    (hne : renameDirPath old (newDistName old n) p
            ≠ newDistName old n ++ "/METADATA".data) :
    (renameDirPath old (newDistName old n) p, c) ∈ fs'.files := by
  unfold renamePackageCore at hok
  simp only [hdist] at hok
  have hmem1 : (renameDirPath old (newDistName old n) p, c)
      ∈ (fs.renameDir old (newDistName old n)).files := by
    simp only [FS.renameDir]
    exact List.mem_map.mpr ⟨(p, c), hmem, rfl⟩
  rcases hlk : (fs.renameDir old (newDistName old n)).lookupFile
      (newDistName old n ++ "/METADATA".data) with _ | content
  · rw [hlk] at hok
    injection hok with h
    subst h
    exact hmem1
  · rw [hlk] at hok
    injection hok with h
    subst h
    exact lookupL_mem_of_ne _ _ hne hmem1

/-- C1 witness: instantiating the amended theorem on the demo tree at the
`WHEEL` file. -/
theorem c1_rename_preserves_file_contents_witness :
    (renameDirPath "demo-1.0.0.dist-info".data
        (newDistName "demo-1.0.0.dist-info".data "demo2".data)
        "demo-1.0.0.dist-info/WHEEL".data, wheelDemo)
      ∈ (fsAfterDemo "demo2".data).files :=
  c1_rename_preserves_file_contents fsDemo "demo2".data (fsAfterDemo "demo2".data)
    "demo-1.0.0.dist-info".data "demo-1.0.0.dist-info/WHEEL".data wheelDemo
    rfl rfl (by decide) (by decide)

/-! ### C2 -/

/-- C2: the code violates the path-escape guarantee.  On the demo session,
`replace_file("../../etc/passwd", src)` with an existing source succeeds
instead of failing with `PathEscapeError`: the write target joins the tree
root with the raw `..` segments, its normalized form
`/tmp/etc/passwd` resolves outside the tree root `/tmp/wex/demo-1.0.0`, and
the escaping path is recorded as written. -/
theorem c2_relative_target_escapes :
    WheelEditor.replace_file edDemo "../../etc/passwd".data (some "PWNED".data)
      = .ok (⟨fsDemo, rootDemo,
               some ⟨fsDemo.files ++ [("../../etc/passwd".data, "PWNED".data)]⟩⟩,
             ⟨true, ["tmp".data, "wex".data, "demo-1.0.0".data,
                     "..".data, "..".data, "etc".data, "passwd".data]⟩) ∧
    escapesTree rootDemo
      ⟨true, ["tmp".data, "wex".data, "demo-1.0.0".data,
              "..".data, "..".data, "etc".data, "passwd".data]⟩ = true ∧
    normSegs ["tmp".data, "wex".data, "demo-1.0.0".data,
              "..".data, "..".data, "etc".data, "passwd".data]
      = ["tmp".data, "etc".data, "passwd".data] :=
  ⟨rfl, by decide, by decide⟩

/-! ### C3 -/

/-- C3 counterexample: a manifest record whose path `pkg/RECORD` merely ends
in `RECORD` — it is a live file distinct from the manifest's own path — is
emitted with empty hash and size fields, although the claim demands a fresh
digest and byte length for every existing path other than the manifest's
own. -/
theorem c3_foreign_record_suffix_emptied :
    updateRecordFile digest0 fsC3
      = .ok ⟨[("d_1.dist-info/RECORD".data,
               "pkg/RECORD,,\nd_1.dist-info/RECORD,,\n".data),
              ("pkg/RECORD".data, "abc".data)]⟩ ∧
    fsC3.lookupFile "pkg/RECORD".data = some "abc".data ∧
    "pkg/RECORD".data ≠ "d_1.dist-info/RECORD".data ∧
    updateRecordData digest0 fsC3 (pyLines recC3)
      = [("pkg/RECORD".data, (([] : List Char), ([] : List Char))),
         ("d_1.dist-info/RECORD".data, (([] : List Char), ([] : List Char)))] ∧
    ("sha256=".data ++ digest0 "abc".data, Nat.toDigits 10 ("abc".data).length)
      ≠ (([] : List Char), ([] : List Char)) :=
  ⟨rfl, rfl, by decide, rfl, by decide⟩

/-- C3 (amended): manifest regeneration equals the per-line specification —
blank lines are skipped, every record of three or more fields whose path
ends in `RECORD` (the manifest's own entry among them) gets empty hash/size
fields, existing paths get a fresh digest and byte length, missing paths
keep their recorded fields, shorter records are padded, and order is
line order. -/
theorem c3_update_record_refines_spec (digest : List Char → List Char) (fs : FS)
    (lines : List (List Char)) :
    updateRecordData digest fs lines
      = (lines.map (recordLineSpecEmit digest fs)).flatten := by
  induction lines with
  | nil => rfl
  | cons ln rest ih =>
    simp only [updateRecordData, recordLineSpecEmit, List.map_cons, List.flatten_cons]
    by_cases hb : pyStrip ln = []
    · simp [hb, ih]
    · by_cases h3 : 3 ≤ (pySplit ',' (pyStrip ln)).length
      · have h3' : ¬((pySplit ',' (pyStrip ln)).length < 3) := by omega
        simp only [if_neg hb, if_pos h3, if_neg h3']
        split
        · simp [ih]
        · split <;> simp [ih]
      · have h3' : (pySplit ',' (pyStrip ln)).length < 3 := by omega
        simp [hb, h3, h3', ih]

/-! ### C4 -/

/-- C4 counterexample: renaming the demo package to the valid hyphenated
name `a-b` yields a metadata directory `a_b-1.0.0.dist-info`, whose segment
before the first separator is `a_b`, while the metadata body's name field
reads `a-b` — the two identity views disagree. -/
theorem c4_hyphen_identity_mismatch :
    WheelEditor.rename_package edDemo "a-b".data
      = .ok (edAfterDemo "a-b".data, "a-b".data) ∧
    (fsAfterDemo "a-b".data).distInfoDirE = .ok "a_b-1.0.0.dist-info".data ∧
    ("a_b-1.0.0.dist-info".data).takeWhile (· ≠ '-') = "a_b".data ∧
    (fsAfterDemo "a-b".data).lookupFile "a_b-1.0.0.dist-info/METADATA".data
      = some "Name: a-b\nVersion: 1.0.0\n".data ∧
    "a_b".data ≠ "a-b".data :=
  ⟨rfl, rfl, by decide, rfl, by decide⟩

theorem replaceChar_no_dash (n : List Char) :
    ∀ c ∈ replaceChar '-' '_' n, c ≠ '-' := by
  intro c hc
  rcases List.mem_map.mp hc with ⟨a, _, rfl⟩
  by_cases hd : a = '-'
  · simp [hd]
  · simp [hd]

theorem takeWhile_dOf (n : List Char) :
    (dOf n).takeWhile (· ≠ '-') = replaceChar '-' '_' n := by
  rw [dOf_eq]
  have hsfx : "-1.0.0.dist-info".data = '-' :: "1.0.0.dist-info".data := rfl
  rw [hsfx]
  exact takeWhile_append_cons _ _ _ _
    (fun x hx => decide_eq_true (replaceChar_no_dash n x hx)) (by decide)

theorem replaceChar_id_of_not_mem {n : List Char} (h : '-' ∉ n) :
    replaceChar '-' '_' n = n := by
  induction n with
  | nil => rfl
  | cons c cs ih =>
    have h1 : ¬(c = '-') := fun hc => h (by rw [← hc]; exact List.mem_cons_self c cs)
    have h2 : '-' ∉ cs := fun hm => h (List.mem_cons_of_mem _ hm)
    show (if c = '-' then '_' else c) :: replaceChar '-' '_' cs = c :: cs
    rw [if_neg h1, ih h2]

theorem rename_edDemo (n : List Char)
    (h : WheelEditor.validate_package_name n = true) :
    WheelEditor.rename_package edDemo n = .ok (edAfterDemo n, n) := by
  unfold WheelEditor.rename_package
  rw [h]
  simp [Editor.ensureUnpacked, edDemo, renameDemoEq n, edAfterDemo]

/-- C4 (amended): after any successful `rename_package(n)` on the demo tree,
the segment of the new Metadata Directory's name before the first hyphen is
`n` with every hyphen replaced by an underscore, while the metadata body's
name field is `n` itself; the two agree exactly when `n` contains no
hyphen. -/
theorem c4_identity_after_rename (n : List Char)
    (h : WheelEditor.validate_package_name n = true) :
    WheelEditor.rename_package edDemo n = .ok (edAfterDemo n, n) ∧
    (fsAfterDemo n).distInfoDirE = .ok (dOf n) ∧
    (dOf n).takeWhile (· ≠ '-') = replaceChar '-' '_' n ∧
    (fsAfterDemo n).lookupFile (dOf n ++ "/METADATA".data)
      = some ("Name: ".data ++ n ++ "\nVersion: 1.0.0\n".data) ∧
    ('-' ∉ n → (dOf n).takeWhile (· ≠ '-') = n) :=
  ⟨rename_edDemo n h, distInfo_after h, takeWhile_dOf n, md_after n,
    fun hnm => by rw [takeWhile_dOf n, replaceChar_id_of_not_mem hnm]⟩

/-- C4 witness: the amended theorem instantiated at the hyphen-free name
`demo3` and checked concretely. -/
theorem c4_identity_after_rename_witness :
    WheelEditor.validate_package_name "demo3".data = true ∧
    (dOf "demo3".data).takeWhile (· ≠ '-') = replaceChar '-' '_' "demo3".data :=
  ⟨by decide, (c4_identity_after_rename "demo3".data (by decide)).2.2.1⟩

/-! ### C5 -/

theorem distInfoDirE_error {fs : FS} {e : Err}
    (h : fs.distInfoDirE = .error e) : e = .structural := by
  unfold FS.distInfoDirE at h
  rcases hd : fs.distInfoDirs with _ | ⟨d, rest⟩ <;> rw [hd] at h
  · injection h with h'
    exact h'.symm
  · simp at h

theorem renamePackageCore_error {fs : FS} {n : List Char} {err : Err}
    (h : renamePackageCore fs n = .error err) : err = .structural := by
  unfold renamePackageCore at h
  rcases hd : fs.distInfoDirE with e | old
  · simp only [hd] at h
    injection h with h'
    exact h' ▸ distInfoDirE_error hd
  · simp only [hd] at h
    rcases hlk : (fs.renameDir old (newDistName old n)).lookupFile
        (newDistName old n ++ "/METADATA".data) with _ | content <;>
      rw [hlk] at h <;> simp at h

theorem validate_eq_specNameOk (n : List Char) :
    WheelEditor.validate_package_name n = specNameOk n := by
  have hfun : (fun c => isAsciiAlpha c || isDigitC c || c = '.' || c = '_' || c = '-')
      = isNameChar := rfl
  cases n with
  | nil => rfl
  | cons c cs =>
    by_cases hall : (c :: cs).all isNameChar
    · simp [WheelEditor.validate_package_name, specNameOk, hfun, hall]
    · simp [WheelEditor.validate_package_name, specNameOk, hfun, hall]

/-- C5: `rename_package` raises `InvalidNameError` exactly when the name
violates the distribution-name grammar of the specification, and in that
case the raise happens before unpacking or any mutation: the session is
returned exactly as it was. -/
theorem c5_invalid_name_exact (n : List Char) (e : Editor) :
    (WheelEditor.validate_package_name n = specNameOk n) ∧
    (specNameOk n = false →
      WheelEditor.rename_package e n = .error (.invalidName, e)) ∧
    (specNameOk n = true →
      ∀ x : Editor, WheelEditor.rename_package e n ≠ .error (.invalidName, x)) := by
  refine ⟨validate_eq_specNameOk n, ?_, ?_⟩
  · intro hf
    unfold WheelEditor.rename_package
    rw [validate_eq_specNameOk n, hf]
    rfl
  · intro ht x
    unfold WheelEditor.rename_package
    rw [validate_eq_specNameOk n, ht]
    simp only [if_neg (by decide : ¬(true = false))]
    rcases hc : renamePackageCore e.ensureUnpacked.1 n with err | fs'
    · have herr := renamePackageCore_error hc
      subst herr
      simp [hc]
    · simp [hc]

/-- C5 witness: the embedded space makes `a b` invalid, and the session is
handed back untouched; the grammar equivalence is checked on the same
input. -/
theorem c5_invalid_name_exact_witness :
    WheelEditor.rename_package edDemo "a b".data = .error (.invalidName, edDemo) ∧
    WheelEditor.validate_package_name "a b".data = specNameOk "a b".data :=
  ⟨(c5_invalid_name_exact "a b".data edDemo).2.1 (by decide),
   (c5_invalid_name_exact "a b".data edDemo).1⟩

/-! ### C6 -/

/-- C6: for every valid name `n`, renaming the demo package to `n` succeeds,
`get_metadata` afterwards returns text containing `Name: n` (the text is
exactly `Name: n` followed by the untouched remainder), and the metadata
directory is renamed to `n.replace('-','_') + "-1.0.0.dist-info"`, its
trailing `-1.0.0` version suffix preserved exactly. -/
theorem c6_rename_then_metadata (n : List Char)
    (h : WheelEditor.validate_package_name n = true) :
    WheelEditor.rename_package edDemo n = .ok (edAfterDemo n, n) ∧
    WheelEditor.get_metadata (edAfterDemo n)
      = .ok (edAfterDemo n, some ("Name: ".data ++ n ++ "\nVersion: 1.0.0\n".data)) ∧
    strContains ("Name: ".data ++ n ++ "\nVersion: 1.0.0\n".data)
      ("Name: ".data ++ n) = true ∧
    dOf n = replaceChar '-' '_' n ++ "-1.0.0.dist-info".data ∧
    (fsAfterDemo n).distInfoDirE = .ok (dOf n) := by
  refine ⟨rename_edDemo n h, ?_, ?_, dOf_eq n, distInfo_after h⟩
  · unfold WheelEditor.get_metadata
    simp [Editor.ensureUnpacked, edAfterDemo, distInfo_after h, md_after n]
  · exact contains_of_startsWith (startsWith_self_append ("Name: ".data ++ n) _)

/-- C6 witness: the scenario of the specification, `rename_package("demo2")`
on `demo-1.0.0`, checked concretely. -/
theorem c6_rename_then_metadata_witness :
    WheelEditor.validate_package_name "demo2".data = true ∧
    WheelEditor.get_metadata (edAfterDemo "demo2".data)
      = .ok (edAfterDemo "demo2".data, some "Name: demo2\nVersion: 1.0.0\n".data) ∧
    dOf "demo2".data = "demo2-1.0.0.dist-info".data :=
  ⟨by decide, (c6_rename_then_metadata "demo2".data (by decide)).2.1, by decide⟩

/-! ### C7 -/

/-- C7 counterexample: a tree with two metadata directories is not rejected:
the lookup returns the first directory instead of failing. -/
theorem c7_multiple_dist_info_accepted :
    fsC7.distInfoDirE = .ok "a-1.dist-info".data ∧
    fsC7.distInfoDirs = ["a-1.dist-info".data, "b-2.dist-info".data] ∧
    fsC7.distInfoDirs.length = 2 :=
  ⟨rfl, rfl, by decide⟩

/-- C7 (amended): the metadata-directory lookup fails (with the structural
error) exactly when no `.dist-info` entry exists at the top level; whenever
one or more exist — ambiguity included — it succeeds and returns the first
such entry, which does carry the `.dist-info` suffix. -/
theorem c7_dist_info_lookup (fs : FS) :
    (fs.distInfoDirE = .error .structural ↔ fs.distInfoDirs = []) ∧
    (∀ d, fs.distInfoDirE = .ok d →
      d ∈ fs.distInfoDirs ∧ endsWithL ".dist-info".data d = true) := by
  constructor
  · rcases hd : fs.distInfoDirs with _ | ⟨d, rest⟩ <;>
      simp [FS.distInfoDirE, hd]
  · intro d hok
    unfold FS.distInfoDirE at hok
    rcases hd : fs.distInfoDirs with _ | ⟨d', rest⟩ <;> rw [hd] at hok
    · simp at hok
    · injection hok with h'
      subst h'
      have hmem : d' ∈ fs.distInfoDirs := by
        rw [hd]
        exact List.mem_cons_self _ _
      exact ⟨List.mem_cons_self _ _, List.of_mem_filter hmem⟩

/-- C7 witness: the amended characterization applied to the empty tree and
to the two-directory tree. -/
theorem c7_dist_info_lookup_witness :
    (FS.mk []).distInfoDirE = .error .structural ∧
    "a-1.dist-info".data ∈ fsC7.distInfoDirs ∧
    endsWithL ".dist-info".data "a-1.dist-info".data = true :=
  ⟨(c7_dist_info_lookup ⟨[]⟩).1.mpr rfl,
   ((c7_dist_info_lookup fsC7).2 "a-1.dist-info".data rfl).1,
   ((c7_dist_info_lookup fsC7).2 "a-1.dist-info".data rfl).2⟩

/-! ### C8 -/

theorem renameFilePass_untouched (pat rep p c : List Char) :
    ∀ l : List (List Char × List Char), (p, c) ∈ l → strContains p pat = false →
      (p, c) ∈ (WheelEditor.renameFilePass pat rep l).1 := by
  intro l
  induction l with
  | nil =>
    intro hmem _
    cases hmem
  | cons e rest ih =>
    intro hmem hnc
    rcases e with ⟨q, d⟩
    rcases List.mem_cons.mp hmem with heq | hmem'
    · cases heq
      simp [WheelEditor.renameFilePass, hnc]
    · have hr := ih hmem' hnc
      by_cases hq : strContains q pat = true
      · simp [WheelEditor.renameFilePass, hq, hr]
      · simp [WheelEditor.renameFilePass, hq, hr]

/-- C8: `rename_file("old_module", "new_module", use_regex=False)` on the
tree containing `pkg/old_module/__init__.py` returns exactly the renamed
pair, afterwards the file exists only at the new relative path, the
non-matching `pkg/other.py` is untouched, and in general every file whose
relative path does not contain the pattern stays in place. -/
theorem c8_rename_file_literal :
    WheelEditor.rename_file edC8 "old_module".data "new_module".data
      = .ok (⟨fsC8, rootDemo,
               some ⟨[("pkg/new_module/__init__.py".data, "A".data),
                      ("pkg/other.py".data, "B".data)]⟩⟩,
             [("pkg/old_module/__init__.py".data,
               "pkg/new_module/__init__.py".data)]) ∧
    (FS.mk [("pkg/new_module/__init__.py".data, "A".data),
            ("pkg/other.py".data, "B".data)]).lookupFile
        "pkg/old_module/__init__.py".data = none ∧
    (FS.mk [("pkg/new_module/__init__.py".data, "A".data),
            ("pkg/other.py".data, "B".data)]).lookupFile
        "pkg/new_module/__init__.py".data = some "A".data ∧
    (∀ (fs : FS) (pat rep p c : List Char),
      (p, c) ∈ fs.files → strContains p pat = false →
      (p, c) ∈ (WheelEditor.renameFilePass pat rep fs.files).1) :=
  ⟨rfl, rfl, rfl,
    fun fs pat rep p c hm hn => renameFilePass_untouched pat rep p c fs.files hm hn⟩

/-- C8 witness: the untouched-files clause instantiated at `pkg/other.py`
of the scenario tree. -/
theorem c8_rename_file_literal_witness :
    ("pkg/other.py".data, "B".data)
      ∈ (WheelEditor.renameFilePass "old_module".data "new_module".data
          fsC8.files).1 :=
  c8_rename_file_literal.2.2.2 fsC8 "old_module".data "new_module".data
    "pkg/other.py".data "B".data (by decide) (by decide)

/-! ### C9 -/

/-- C9: `rename_package`, `replace_file`, `replace_metadata`, `rename_file`
and `list` invoked on a session that was never unpacked behave exactly as on
the session after unpacking (they unpack lazily and proceed); only
`repackage` rejects the not-yet-unpacked session, with the state error. -/
theorem c9_lazy_unpack (A : FS) (r : PyPath) (dg : List Char → List Char)
    (n d pat rep tgt : List Char) (src : Option (List Char)) :
    (WheelEditor.validate_package_name n = true →
      WheelEditor.rename_package ⟨A, r, none⟩ n
        = WheelEditor.rename_package ⟨A, r, some A⟩ n) ∧
    WheelEditor.replace_file ⟨A, r, none⟩ tgt src
      = WheelEditor.replace_file ⟨A, r, some A⟩ tgt src ∧
    WheelEditor.replace_metadata ⟨A, r, none⟩ src
      = WheelEditor.replace_metadata ⟨A, r, some A⟩ src ∧
    WheelEditor.rename_file ⟨A, r, none⟩ pat rep
      = WheelEditor.rename_file ⟨A, r, some A⟩ pat rep ∧
    WheelEditor.list ⟨A, r, none⟩ d = WheelEditor.list ⟨A, r, some A⟩ d ∧
    WheelEditor.repackage dg ⟨A, r, none⟩ = .error (.state, ⟨A, r, none⟩) := by
  refine ⟨?_, rfl, rfl, rfl, rfl, rfl⟩
  intro h
  unfold WheelEditor.rename_package
  rw [h]
  exact rfl

/-- C9 witness: the lazy-unpack equality at a concrete session and name, and
the state error of `repackage` on the not-yet-unpacked session. -/
theorem c9_lazy_unpack_witness :
    WheelEditor.rename_package ⟨fsDemo, rootDemo, none⟩ "demo2".data
      = WheelEditor.rename_package ⟨fsDemo, rootDemo, some fsDemo⟩ "demo2".data ∧
    WheelEditor.repackage digest0 ⟨fsDemo, rootDemo, none⟩
      = .error (.state, ⟨fsDemo, rootDemo, none⟩) :=
  ⟨(c9_lazy_unpack fsDemo rootDemo digest0 "demo2".data [] [] [] [] none).1
      (by decide),
   (c9_lazy_unpack fsDemo rootDemo digest0 "demo2".data [] [] [] [] none).2.2.2.2.2⟩

/-! ### C10 -/

/-- C10: when the metadata directory holds no manifest, manifest
regeneration is silently skipped: `repackage` still succeeds, packs the
tree unchanged, and resets the session's extraction state. -/
theorem c10_repackage_without_record (dg : List Char → List Char) (A fs : FS)
    (r : PyPath) (d : List Char)
    (hdist : fs.distInfoDirE = .ok d)
    (hrec : fs.lookupFile (d ++ "/RECORD".data) = none) :
    WheelEditor.repackage dg ⟨A, r, some fs⟩ = .ok (⟨A, r, none⟩, fs) := by
  have hupd : updateRecordFile dg fs = .ok fs := by
    unfold updateRecordFile
    simp only [hdist, hrec]
  unfold WheelEditor.repackage
  simp [hupd]

/-- C10 witness: a tree with a metadata directory and no `RECORD` file. -/
theorem c10_repackage_without_record_witness :
    WheelEditor.repackage digest0 ⟨fsC10, rootDemo, some fsC10⟩
      = .ok (⟨fsC10, rootDemo, none⟩, fsC10) :=
  c10_repackage_without_record digest0 fsC10 fsC10 rootDemo
    "d-1.dist-info".data rfl rfl
